import Mathlib

/-!
Verification of the PRtester repository against its natural-language
specification.  The development shallowly embeds the repository's code:

* `exclusive_products` — the prefix/suffix product routine described by the
  specification (the routine itself is not present under `src/`, so it is
  modelled from the specification's words);
* the string-cleaning and JSON-extraction helpers of `src/solution.py`
  (`extract_json_from_response`, the fence-stripping in
  `analyze_job_description`), working over `List Char`;
* the FastAPI endpoint handlers of `src/solution.py`
  (`upload_resume`, `generate_resume_and_cover_letter`, `download_resume`,
  `download_cover_letter`) as pure functions over an explicit server state
  and an oracle supplying outcomes of the external calls;
* the `submit_timesheet` route of `src/array_products.py` over an explicit
  database state.
-/

namespace PRtester

/-! ## Part 1: exclusive products (modelled from the spec) -/

/-- Modelled from the spec: the repository's `calculate_products` /
`exclusive_products` routine is not present under `src/`; the specification
describes it as "computing each element's product-of-others via running
prefix/suffix products", without division.  `prefixProducts acc xs` is the
running pass that emits, at each position, the product of all elements
strictly before it (starting from the accumulator `acc`). -/
def prefixProducts (acc : Int) : List Int → List Int
  | [] => []
  | x :: xs => acc :: prefixProducts (acc * x) xs

/-- Modelled from the spec: the suffix-products pass; `suffixProducts xs`
emits, at each position, the product of all elements strictly after it. -/
def suffixProducts : List Int → List Int
  | [] => []
  | _ :: xs => xs.prod :: suffixProducts xs

/-- Modelled from the spec: `exclusive_products nums` combines the running
prefix and suffix products pointwise, so entry `i` is the product of all
entries other than `i`.  No division is used. -/
def exclusive_products (nums : List Int) : List Int :=
  List.zipWith (· * ·) (prefixProducts 1 nums) (suffixProducts nums)

theorem length_prefixProducts (acc : Int) (xs : List Int) :
    (prefixProducts acc xs).length = xs.length := by
  induction xs generalizing acc with
  | nil => rfl
  | cons x xs ih => simp [prefixProducts, ih]

theorem length_suffixProducts (xs : List Int) :
    (suffixProducts xs).length = xs.length := by
  induction xs with
  | nil => rfl
  | cons x xs ih => simp [suffixProducts, ih]

theorem zip_prefix_suffix (acc : Int) (xs : List Int) :
    List.zipWith (· * ·) (prefixProducts acc xs) (suffixProducts xs)
      = (List.range xs.length).map (fun i => acc * (xs.eraseIdx i).prod) := by
  induction xs generalizing acc with
  | nil => rfl
  | cons x xs ih =>
      simp only [prefixProducts, suffixProducts, List.zipWith_cons_cons,
        List.length_cons, List.range_succ_eq_map, List.map_cons, List.map_map]
      congr 1
      rw [ih (acc * x)]
      apply List.map_congr_left
      intro i _
      simp [List.eraseIdx, mul_assoc]

/-- The central characterization: entry `i` of `exclusive_products nums`
is the product of `nums` with index `i` erased. -/
theorem exclusive_products_eq_map (nums : List Int) :
    exclusive_products nums
      = (List.range nums.length).map (fun i => (nums.eraseIdx i).prod) := by
  rw [exclusive_products, zip_prefix_suffix]
  simp

theorem length_exclusive_products (nums : List Int) :
    (exclusive_products nums).length = nums.length := by
  rw [exclusive_products_eq_map]; simp

theorem exclusive_products_getD (nums : List Int) (i : Nat)
    (h : i < nums.length) :
    (exclusive_products nums).getD i 0 = (nums.eraseIdx i).prod := by
  rw [exclusive_products_eq_map, List.getD_eq_getElem?_getD,
    List.getElem?_map, List.getElem?_range h]
  rfl

/-- C1: `exclusive_products` maps a sequence of length `n` to a sequence of
length `n` whose `i`-th entry is the product of all other entries
(`List.eraseIdx` removes exactly the `i`-th entry); for the empty input the
result is empty, and for a singleton the result is `[1]`. -/
theorem exclusive_products_spec :
    (∀ nums : List Int,
        exclusive_products nums
          = (List.range nums.length).map (fun i => (nums.eraseIdx i).prod))
    ∧ (∀ nums : List Int,
        (exclusive_products nums).length = nums.length)
    ∧ exclusive_products [] = []
    ∧ (∀ a : Int, exclusive_products [a] = [1]) := by
  refine ⟨exclusive_products_eq_map, length_exclusive_products, rfl, ?_⟩
  intro a
  simp [exclusive_products, prefixProducts, suffixProducts]

theorem getD_eq_get (l : List Int) (i : Nat) (h : i < l.length) :
    l.getD i 0 = l.get ⟨i, h⟩ := by
  simp [List.getD_eq_getElem?_getD, List.getElem?_eq_getElem h]

theorem zero_mem_eraseIdx {nums : List Int} {k i : Nat} (hk : k < nums.length)
    (hzero : nums.getD k 0 = 0) (hne : k ≠ i) : (0 : Int) ∈ nums.eraseIdx i := by
  rw [List.mem_eraseIdx_iff_getElem]
  refine ⟨k, hk, hne, ?_⟩
  rw [getD_eq_get nums k hk] at hzero
  simpa using hzero

/-- C2: an input with a zero at index `k` and no zero elsewhere yields a
result that is zero at every index other than `k` and holds the product of
the remaining elements at `k`; an input with zeros at two distinct indices
yields an all-zero result. -/
theorem exclusive_products_zero_inputs :
    (∀ (nums : List Int) (k : Nat), k < nums.length →
        nums.getD k 0 = 0 →
        (∀ j, j < nums.length → j ≠ k → nums.getD j 0 ≠ 0) →
        (∀ i, i < nums.length → i ≠ k →
          (exclusive_products nums).getD i 0 = 0)
          ∧ (exclusive_products nums).getD k 0 = (nums.eraseIdx k).prod)
    ∧ (∀ (nums : List Int) (k₁ k₂ : Nat),
        k₁ < nums.length → k₂ < nums.length → k₁ ≠ k₂ →
        nums.getD k₁ 0 = 0 → nums.getD k₂ 0 = 0 →
        ∀ i, i < nums.length → (exclusive_products nums).getD i 0 = 0) := by
  constructor
  · intro nums k hk hzero _hothers
    constructor
    · intro i hi hne
      rw [exclusive_products_getD nums i hi]
      exact List.prod_eq_zero (zero_mem_eraseIdx hk hzero (fun h => hne h.symm))
    · exact exclusive_products_getD nums k hk
  · intro nums k₁ k₂ h1 h2 hne hz1 hz2 i hi
    rw [exclusive_products_getD nums i hi]
    rcases Classical.em (k₁ = i) with h | h
    · subst h
      exact List.prod_eq_zero (zero_mem_eraseIdx h2 hz2 (fun hh => hne hh.symm))
    · exact List.prod_eq_zero (zero_mem_eraseIdx h1 hz1 h)

/-- Witness for C2 at the concrete inputs `[2, 0, 3]` (one zero) and
`[0, 5, 0]` (two zeros). -/
theorem exclusive_products_zero_inputs_witness :
    ((exclusive_products [2, 0, 3]).getD 0 0 = 0
      ∧ (exclusive_products [2, 0, 3]).getD 2 0 = 0
      ∧ (exclusive_products [2, 0, 3]).getD 1 0 = 6)
    ∧ (exclusive_products [0, 5, 0]).getD 1 0 = 0 := by
  have h1 := (exclusive_products_zero_inputs.1 [2, 0, 3] 1 (by decide)
    (by decide) (by decide))
  have h2 := exclusive_products_zero_inputs.2 [0, 5, 0] 0 2 (by decide)
    (by decide) (by decide) (by decide) (by decide) 1 (by decide)
  refine ⟨⟨h1.1 0 (by decide) (by decide), h1.1 2 (by decide) (by decide), ?_⟩, h2⟩
  rw [h1.2]; decide

theorem eraseIdx_reverse_eq {α : Type} (l : List α) (i : Nat)
    (h : i < l.length) :
    l.reverse.eraseIdx i = (l.eraseIdx (l.length - 1 - i)).reverse := by
  have e1 : l.length - i = l.length - 1 - i + 1 := by omega
  have e2 : l.length - (i + 1) = l.length - 1 - i := by omega
  rw [List.eraseIdx_eq_take_drop_succ, List.eraseIdx_eq_take_drop_succ,
    List.reverse_append, List.take_reverse, List.drop_reverse, e1, e2]

theorem exclusive_products_reverse (nums : List Int) :
    exclusive_products nums.reverse = (exclusive_products nums).reverse := by
  rw [exclusive_products_eq_map, exclusive_products_eq_map]
  apply List.ext_getElem
  · simp
  · intro i h1 h2
    simp only [List.length_map, List.length_range, List.length_reverse] at h1 h2
    rw [List.getElem_reverse]
    simp only [List.getElem_map, List.getElem_range, List.length_map,
      List.length_range]
    rw [eraseIdx_reverse_eq nums i (by simpa using h1), List.prod_reverse]

theorem exclusive_products_all_ones (n : Nat) :
    exclusive_products (List.replicate n 1) = List.replicate n 1 := by
  rw [exclusive_products_eq_map]
  have hp : ∀ i : Nat, ((List.replicate n (1 : Int)).eraseIdx i).prod = 1 := by
    intro i
    apply List.prod_eq_one
    intro x hx
    exact List.eq_of_mem_replicate (List.mem_of_mem_eraseIdx hx)
  simp only [hp, List.length_replicate]
  simp [List.map_const']

/-- C3: reversing the input reverses the output of `exclusive_products`;
moreover the two concrete test vectors from the spec evaluate as stated,
and every all-ones input yields an all-ones output of the same length. -/
theorem exclusive_products_algebraic :
    (∀ nums : List Int,
        exclusive_products nums.reverse = (exclusive_products nums).reverse)
    ∧ exclusive_products [1, 2, 3, 4] = [24, 12, 8, 6]
    ∧ exclusive_products [2, 3, 4, 5] = [60, 40, 30, 24]
    ∧ (∀ n : Nat,
        exclusive_products (List.replicate n 1) = List.replicate n 1) :=
  ⟨exclusive_products_reverse, by decide, by decide,
    exclusive_products_all_ones⟩

/-! ## Part 2: string helpers of `src/solution.py`, over `List Char` -/

/-- Python whitespace: the characters matched by `str.strip()` and by the
regex class accepted in `solution.py`'s patterns. -/
def pyIsSpace (c : Char) : Bool :=
  c = ' ' || c = '\t' || c = '\n' || c = '\r' || c = '\x0b' || c = '\x0c'

/-- `str.strip()` as used on the raw LLM output (solution.py:182,191). -/
def pyStrip (s : List Char) : List Char :=
  ((s.dropWhile pyIsSpace).reverse.dropWhile pyIsSpace).reverse

/-- `str.removeprefix`: drop `p` from the front only when it is present
(solution.py:188-189). -/
def removePre (p s : List Char) : List Char :=
  if p.isPrefixOf s then s.drop p.length else s

/-- `str.removesuffix`: drop `p` from the back only when it is present
(solution.py:190). -/
def removeSuf (p s : List Char) : List Char :=
  if p.isSuffixOf s then s.take (s.length - p.length) else s

/-- The plain markdown fence. -/
def fence : List Char := "```".toList

/-- The json-tagged markdown fence. -/
def fenceJson : List Char := "```json".toList

/-- The fence-stripping chain of `analyze_job_description`
(solution.py:186-192): `removeprefix("```json")`, `removeprefix("```")`,
`removesuffix("```")`, `strip()`. -/
def cleanResponse (s : List Char) : List Char :=
  pyStrip (removeSuf fence (removePre fence (removePre fenceJson s)))

theorem isPre_iff (l1 l2 : List Char) :
    l1.isPrefixOf l2 = true ↔ l1 <+: l2 :=
  List.isPrefixOf_iff_prefix

theorem removePre_append (p t : List Char) : removePre p (p ++ t) = t := by
  rw [removePre, if_pos, List.drop_left]
  rw [isPre_iff]
  exact List.prefix_append p t

theorem removeSuf_append (p t : List Char) : removeSuf p (t ++ p) = t := by
  rw [removeSuf, if_pos]
  · have hl : (t ++ p).length - p.length = t.length := by
      simp [List.length_append]
    rw [hl, List.take_left]
  · rw [List.isSuffixOf_iff_suffix]
    exact List.suffix_append t p

theorem removePre_of_not_pre (p s : List Char) (h : ¬ p <+: s) :
    removePre p s = s := by
  rw [removePre, if_neg]
  rw [isPre_iff]
  exact h

/-- If the fence heads `body ++ fence` but not `body`, then `body` is a
short, proper front piece of the fence itself. -/
theorem body_short_of_fence_pre (body : List Char)
    (h : ¬ fence <+: body) (h2 : fence <+: body ++ fence) :
    body.length < fence.length ∧ body = fence.take body.length := by
  have hlt : body.length < fence.length := by
    by_contra hge
    push_neg at hge
    apply h
    rw [List.prefix_iff_eq_take]
    rw [List.prefix_iff_eq_take, List.take_append_of_le_length hge] at h2
    exact h2
  refine ⟨hlt, ?_⟩
  rw [List.prefix_iff_eq_take] at h2
  have t1 : ((body ++ fence).take fence.length).take body.length
      = (body ++ fence).take body.length := by
    rw [List.take_take, Nat.min_eq_left (Nat.le_of_lt hlt)]
  have key : (body ++ fence).take body.length = fence.take body.length := by
    rw [← t1, ← h2]
  rw [← key]
  exact (List.take_left _ _).symm

/-- The cleaning step of `analyze_job_description` recovers the fenced
body (up to surrounding whitespace) from a response of the form
```` ```json<body>``` ````, provided the body does not itself begin with a
fence. -/
theorem cleanResponse_fenced (body : List Char) (h : ¬ fence <+: body) :
    cleanResponse (fenceJson ++ body ++ fence) = pyStrip body := by
  rw [cleanResponse, List.append_assoc, removePre_append]
  by_cases h2 : fence <+: body ++ fence
  · obtain ⟨hlt, hbody⟩ := body_short_of_fence_pre body h h2
    have h3 : body.length = 0 ∨ body.length = 1 ∨ body.length = 2 := by
      have : fence.length = 3 := by decide
      omega
    rcases h3 with h3 | h3 | h3 <;> rw [hbody, h3] <;> decide
  · rw [removePre_of_not_pre _ _ h2, removeSuf_append]

/-! ## Part 3: `extract_json_from_response` (solution.py:60-70) -/

/-- The opening curly brace character. -/
def openBrace : Char := '\x7b'

/-- The closing curly brace character. -/
def closeBrace : Char := '\x7d'

/-- Greedy `\s*`: skip a run of whitespace. -/
def dropWS (s : List Char) : List Char := s.dropWhile pyIsSpace

/-- Lazy scan for the regex piece `[\s\S]*?\}`: consume characters up to
and including the first closing brace.  Returns the consumed segment and
the remainder, or `none` when no closing brace occurs. -/
def upToClose : List Char → Option (List Char × List Char)
  | [] => none
  | c :: rest =>
    if c = closeBrace then some ([c], rest)
    else
      match upToClose rest with
      | some (blk, rem) => some (c :: blk, rem)
      | none => none

theorem upToClose_rem_lt (s : List Char) :
    ∀ blk rem, upToClose s = some (blk, rem) → rem.length < s.length := by
  induction s with
  | nil => intro blk rem h; simp [upToClose] at h
  | cons c rest ih =>
    intro blk rem h
    rw [upToClose] at h
    split at h
    · cases h; simp
    · split at h
      · next blk' rem' heq =>
          cases h
          exact Nat.lt_trans (ih blk' rem heq) (Nat.lt_succ_self _)
      · cases h

/-- Fuel-indexed scan for `re.finditer(r'(\{[\s\S]*?\})', text)`: the
non-overlapping lazy brace blocks, scanned left to right.  The fuel only
bounds the recursion; any fuel at least the length of the input gives the
scan's value. -/
def braceBlocksFuel : Nat → List Char → List (List Char)
  | _, [] => []
  | 0, _ :: _ => []
  | fuel + 1, c :: rest =>
    if c = openBrace then
      match upToClose rest with
      | some (blk, rem) => (c :: blk) :: braceBlocksFuel fuel rem
      | none => []
    else braceBlocksFuel fuel rest

/-- `re.finditer(r'(\{[\s\S]*?\})', text)` (solution.py:66). -/
def braceBlocks (s : List Char) : List (List Char) :=
  braceBlocksFuel s.length s

/-- `max(json_blocks, key=len)` (solution.py:69): the first block of
maximal length, scanning left to right with `cur` as the running best. -/
def maxByLen (cur : List Char) : List (List Char) → List Char
  | [] => cur
  | b :: bs => maxByLen (if b.length > cur.length then b else cur) bs

/-- After the candidate closing brace the pattern requires `\s*` and a
closing fence (solution.py:62). -/
def fenceFollows (s : List Char) : Bool := fence.isPrefixOf (dropWS s)

/-- Lazy scan of `[\s\S]*?` inside the fenced pattern: consume up to and
including the first closing brace that is followed (modulo whitespace) by
a closing fence. -/
def fencedTail : List Char → Option (List Char)
  | [] => none
  | c :: rest =>
    if c = closeBrace && fenceFollows rest then some [c]
    else
      match fencedTail rest with
      | some blk => some (c :: blk)
      | none => none

/-- The regex `` ```json\s*(\{[\s\S]*?\})\s*``` `` anchored at the head of
`s`: on success, the brace group that `re.search` would capture. -/
def headFenced (s : List Char) : Option (List Char) :=
  if fenceJson.isPrefixOf s then
    match dropWS (s.drop fenceJson.length) with
    | c :: rest =>
        if c = openBrace then (fencedTail rest).map (fun blk => c :: blk)
        else none
    | [] => none
  else none

/-- `re.search` over the whole text: try every start position from the
left (solution.py:62). -/
def findFenced : List Char → Option (List Char)
  | [] => none
  | c :: rest =>
    match headFenced (c :: rest) with
    | some blk => some blk
    | none => findFenced rest

/-- `extract_json_from_response` (solution.py:60-70): first the strict
fenced block, then the longest loose brace block, else an error. -/
def extract_json_from_response (s : List Char) : Except String (List Char) :=
  match findFenced s with
  | some blk => .ok blk
  | none =>
    match braceBlocks s with
    | [] => .error "No valid JSON block found in LLM response."
    | b :: bs => .ok (maxByLen b bs)

theorem upToClose_sound (t : List Char) :
    ∀ blk rem, upToClose t = some (blk, rem) →
      t = blk ++ rem ∧ ∃ b, blk = b ++ [closeBrace] ∧ closeBrace ∉ b := by
  induction t with
  | nil => intro blk rem h; simp [upToClose] at h
  | cons c rest ih =>
    intro blk rem h
    rw [upToClose] at h
    by_cases hc : c = closeBrace
    · rw [if_pos hc] at h
      cases h
      subst hc
      exact ⟨rfl, [], rfl, by simp⟩
    · rw [if_neg hc] at h
      cases heq : upToClose rest with
      | none => rw [heq] at h; cases h
      | some pr =>
          obtain ⟨blk', rem'⟩ := pr
          rw [heq] at h
          cases h
          obtain ⟨ht, b, hb, hnb⟩ := ih blk' rem heq
          refine ⟨by rw [ht]; rfl, c :: b, by rw [hb]; rfl, ?_⟩
          intro hmem
          rcases List.mem_cons.mp hmem with hmem | hmem
          · exact hc hmem.symm
          · exact hnb hmem

theorem upToClose_eq_none (t : List Char) :
    upToClose t = none ↔ closeBrace ∉ t := by
  induction t with
  | nil => simp [upToClose]
  | cons c rest ih =>
    rw [upToClose]
    by_cases hc : c = closeBrace
    · subst hc; simp
    · rw [if_neg hc]
      cases heq : upToClose rest with
      | some pr =>
          have hmem : closeBrace ∈ rest := by
            by_contra hmem
            rw [← ih] at hmem
            rw [hmem] at heq; cases heq
          simp [List.mem_cons, hmem]
      | none =>
          have hmem : closeBrace ∉ rest := ih.mp heq
          simp only [List.mem_cons, not_or]
          constructor
          · intro _; exact ⟨fun hh => hc hh.symm, hmem⟩
          · intro _; trivial

theorem maxByLen_mem (bs : List (List Char)) :
    ∀ cur, maxByLen cur bs ∈ cur :: bs := by
  induction bs with
  | nil => intro cur; simp [maxByLen]
  | cons b bs ih =>
    intro cur
    rw [maxByLen]
    by_cases hb : b.length > cur.length
    · rw [if_pos hb]
      have h := ih b
      simp only [List.mem_cons] at h ⊢
      tauto
    · rw [if_neg hb]
      have h := ih cur
      simp only [List.mem_cons] at h ⊢
      tauto

theorem le_maxByLen_cur (bs : List (List Char)) :
    ∀ cur, cur.length ≤ (maxByLen cur bs).length := by
  induction bs with
  | nil => intro cur; exact Nat.le_refl _
  | cons b bs ih =>
    intro cur
    rw [maxByLen]
    refine Nat.le_trans ?_ (ih (if b.length > cur.length then b else cur))
    by_cases hb : b.length > cur.length
    · rw [if_pos hb]; exact Nat.le_of_lt hb
    · rw [if_neg hb]

theorem maxByLen_le (bs : List (List Char)) :
    ∀ cur x, x ∈ cur :: bs → x.length ≤ (maxByLen cur bs).length := by
  induction bs with
  | nil =>
    intro cur x hx
    simp only [List.mem_cons, List.not_mem_nil, or_false] at hx
    subst hx; exact Nat.le_refl _
  | cons b bs ih =>
    intro cur x hx
    rw [maxByLen]
    simp only [List.mem_cons] at hx
    rcases hx with rfl | rfl | hx
    · refine Nat.le_trans ?_ (le_maxByLen_cur bs _)
      by_cases hb : b.length > x.length
      · rw [if_pos hb]; exact Nat.le_of_lt hb
      · rw [if_neg hb]
    · refine Nat.le_trans ?_ (le_maxByLen_cur bs _)
      by_cases hb : x.length > cur.length
      · rw [if_pos hb]
      · rw [if_neg hb]; omega
    · exact ih _ x (List.mem_cons_of_mem _ hx)

theorem fencedTail_sound (t : List Char) :
    ∀ blk, fencedTail t = some blk →
      ∃ b rem, t = b ++ [closeBrace] ++ rem ∧ blk = b ++ [closeBrace]
        ∧ fenceFollows rem = true := by
  induction t with
  | nil => intro blk h; simp [fencedTail] at h
  | cons c rest ih =>
    intro blk h
    rw [fencedTail] at h
    by_cases hcc : (decide (c = closeBrace) && fenceFollows rest) = true
    · rw [if_pos hcc] at h
      cases h
      obtain ⟨hc, hf⟩ := Bool.and_eq_true_iff.mp hcc
      have hc : c = closeBrace := of_decide_eq_true hc
      subst hc
      exact ⟨[], rest, rfl, rfl, hf⟩
    · rw [if_neg hcc] at h
      cases heq : fencedTail rest with
      | none => rw [heq] at h; cases h
      | some blk' =>
          rw [heq] at h
          cases h
          obtain ⟨b, rem, ht, hblk, hf⟩ := ih blk' heq
          refine ⟨c :: b, rem, ?_, ?_, hf⟩
          · rw [ht]; rfl
          · rw [hblk]; rfl

theorem fenceFollows_sound (rem : List Char) (h : fenceFollows rem = true) :
    ∃ mid post, rem = mid ++ fence ++ post ∧ mid.all pyIsSpace = true := by
  rw [fenceFollows, isPre_iff] at h
  obtain ⟨post, hpost⟩ := h
  refine ⟨rem.takeWhile pyIsSpace, post, ?_, ?_⟩
  · conv_lhs => rw [← List.takeWhile_append_dropWhile (p := pyIsSpace) (l := rem)]
    rw [List.append_assoc]
    congr 1
    exact hpost.symm
  · rw [List.all_eq_true]
    intro x hx
    exact List.mem_takeWhile_imp hx

theorem findFenced_first (s : List Char) :
    ∀ blk, findFenced s = some blk →
      ∃ i, headFenced (s.drop i) = some blk
        ∧ ∀ j, j < i → headFenced (s.drop j) = none := by
  induction s with
  | nil => intro blk h; simp [findFenced] at h
  | cons c rest ih =>
    intro blk h
    rw [findFenced] at h
    cases hh : headFenced (c :: rest) with
    | some blk' =>
        rw [hh] at h
        cases h
        exact ⟨0, hh, fun j hj => absurd hj (Nat.not_lt_zero j)⟩
    | none =>
        rw [hh] at h
        obtain ⟨i, h1, h2⟩ := ih blk h
        refine ⟨i + 1, by simpa using h1, ?_⟩
        intro j hj
        cases j with
        | zero => simpa using hh
        | succ j => simpa using h2 j (Nat.lt_of_succ_lt_succ hj)

theorem findFenced_none (s : List Char) (h : findFenced s = none) :
    ∀ i, headFenced (s.drop i) = none := by
  induction s with
  | nil => intro i; rw [List.drop_nil]; decide
  | cons c rest ih =>
    rw [findFenced] at h
    cases hh : headFenced (c :: rest) with
    | some blk => rw [hh] at h; cases h
    | none =>
        rw [hh] at h
        intro i
        cases i with
        | zero => simpa using hh
        | succ i => simpa using ih h i

theorem dropWS_all_append (ws t : List Char) (h : ws.all pyIsSpace = true) :
    dropWS (ws ++ t) = dropWS t := by
  induction ws with
  | nil => rfl
  | cons x ws ih =>
      rw [List.all_cons, Bool.and_eq_true_iff] at h
      rw [List.cons_append, dropWS, List.dropWhile_cons, if_pos h.1]
      exact ih h.2

theorem dropWS_fence_append (post : List Char) :
    dropWS (fence ++ post) = fence ++ post := by
  have hf : ∃ c t, fence = c :: t ∧ pyIsSpace c = false := by
    refine ⟨_, _, rfl, ?_⟩
    decide
  obtain ⟨c, t, hft, hc⟩ := hf
  rw [hft, List.cons_append, dropWS, List.dropWhile_cons, if_neg]
  simp [hc]

theorem fencedTail_complete (b : List Char) :
    ∀ rem, fenceFollows rem = true →
      (fencedTail (b ++ [closeBrace] ++ rem)).isSome = true := by
  induction b with
  | nil =>
    intro rem hf
    have hsh : ([] : List Char) ++ [closeBrace] ++ rem = closeBrace :: rem := rfl
    rw [hsh, fencedTail, if_pos]
    · rfl
    · rw [Bool.and_eq_true_iff]
      exact ⟨decide_eq_true rfl, hf⟩
  | cons x b ih =>
    intro rem hf
    have hsh : (x :: b) ++ [closeBrace] ++ rem
        = x :: (b ++ [closeBrace] ++ rem) := by simp
    rw [hsh, fencedTail]
    by_cases hx :
        (decide (x = closeBrace) && fenceFollows (b ++ [closeBrace] ++ rem))
          = true
    · rw [if_pos hx]; rfl
    · rw [if_neg hx]
      have hsome := ih rem hf
      cases heq : fencedTail (b ++ [closeBrace] ++ rem) with
      | none => rw [heq] at hsome; simp at hsome
      | some blk => rfl

theorem headFenced_sound (s : List Char) (blk : List Char)
    (h : headFenced s = some blk) :
    ∃ ws b mid post,
      s = fenceJson ++ ws ++ blk ++ mid ++ fence ++ post
      ∧ blk = openBrace :: (b ++ [closeBrace])
      ∧ ws.all pyIsSpace = true ∧ mid.all pyIsSpace = true := by
  rw [headFenced] at h
  by_cases hp : fenceJson.isPrefixOf s
  case neg => rw [if_neg hp] at h; cases h
  rw [if_pos hp] at h
  rw [isPre_iff] at hp
  obtain ⟨r1, hr1⟩ := hp
  have hdrop : s.drop fenceJson.length = r1 := by
    rw [← hr1, List.drop_left]
  rw [hdrop] at h
  cases hD : dropWS r1 with
  | nil => rw [hD] at h; cases h
  | cons c rest =>
    rw [hD] at h
    replace h : (if c = openBrace then
        Option.map (fun blk => c :: blk) (fencedTail rest) else none)
          = some blk := h
    by_cases hc : c = openBrace
    case neg => rw [if_neg hc] at h; cases h
    rw [if_pos hc] at h
    cases hft : fencedTail rest with
    | none => rw [hft] at h; cases h
    | some blk' =>
      rw [hft, Option.map_some'] at h
      cases h
      obtain ⟨b, rem, hrest, hblk', hfol⟩ := fencedTail_sound rest blk' hft
      obtain ⟨mid, post, hrem, hmid⟩ := fenceFollows_sound rem hfol
      refine ⟨r1.takeWhile pyIsSpace, b, mid, post, ?_, ?_, ?_, hmid⟩
      · rw [← hr1, List.append_assoc, List.append_assoc, List.append_assoc,
          List.append_assoc]
        congr 1
        conv_lhs =>
          rw [← List.takeWhile_append_dropWhile (p := pyIsSpace) (l := r1)]
        congr 1
        have hDW : r1.dropWhile pyIsSpace = c :: rest := hD
        rw [hDW, hrest, hrem, hblk']
        simp [List.append_assoc]
      · rw [hc, hblk']
      · rw [List.all_eq_true]
        intro x hx
        exact List.mem_takeWhile_imp hx

theorem headFenced_complete (ws b mid post : List Char)
    (hws : ws.all pyIsSpace = true) (hmid : mid.all pyIsSpace = true) :
    (headFenced (fenceJson
        ++ (ws ++ (openBrace :: (b ++ ([closeBrace]
          ++ (mid ++ (fence ++ post)))))))).isSome = true := by
  rw [headFenced, if_pos]
  · rw [List.drop_left]
    have hD : dropWS (ws ++ (openBrace :: (b ++ ([closeBrace]
        ++ (mid ++ (fence ++ post))))))
        = openBrace :: (b ++ ([closeBrace] ++ (mid ++ (fence ++ post)))) := by
      rw [dropWS_all_append _ _ hws, dropWS, List.dropWhile_cons, if_neg]
      simp [openBrace, pyIsSpace]
    rw [hD]
    show (if openBrace = openBrace then
        Option.map (fun blk => openBrace :: blk)
          (fencedTail (b ++ ([closeBrace] ++ (mid ++ (fence ++ post)))))
        else none).isSome = true
    rw [if_pos rfl]
    have hff : fenceFollows (mid ++ (fence ++ post)) = true := by
      rw [fenceFollows, dropWS_all_append _ _ hmid, dropWS_fence_append,
        isPre_iff]
      exact ⟨post, rfl⟩
    have := fencedTail_complete b (mid ++ (fence ++ post)) hff
    have harr : b ++ [closeBrace] ++ (mid ++ (fence ++ post))
        = b ++ ([closeBrace] ++ (mid ++ (fence ++ post))) := by
      simp [List.append_assoc]
    rw [harr] at this
    cases heq : fencedTail (b ++ ([closeBrace] ++ (mid ++ (fence ++ post)))) with
    | none => rw [heq] at this; simp at this
    | some blk => rfl
  · rw [isPre_iff]
    exact ⟨_, rfl⟩

theorem braceBlocksFuel_sound (n : Nat) : ∀ (s : List Char), s.length ≤ n →
    ∀ blk ∈ braceBlocksFuel n s,
      (∃ u v, s = u ++ blk ++ v)
      ∧ ∃ b, blk = openBrace :: (b ++ [closeBrace]) ∧ closeBrace ∉ b := by
  induction n with
  | zero =>
    intro s hs blk hblk
    have hnil : s = [] := List.length_eq_zero.mp (Nat.le_zero.mp hs)
    subst hnil
    simp [braceBlocksFuel] at hblk
  | succ n ih =>
    intro s hs blk hblk
    match s with
    | [] => simp [braceBlocksFuel] at hblk
    | c :: rest =>
      rw [braceBlocksFuel] at hblk
      by_cases hc : c = openBrace
      · rw [if_pos hc] at hblk
        cases heq : upToClose rest with
        | none => rw [heq] at hblk; simp at hblk
        | some pr =>
          obtain ⟨blk0, rem⟩ := pr
          rw [heq] at hblk
          obtain ⟨hrest, b, hb, hnb⟩ := upToClose_sound rest blk0 rem heq
          have hlen : rem.length ≤ n := by
            have h1 := upToClose_rem_lt rest blk0 rem heq
            have h2 : rest.length + 1 ≤ n + 1 := by simpa using hs
            omega
          rcases List.mem_cons.mp hblk with hblk | hblk
          · subst hblk
            refine ⟨⟨[], rem, ?_⟩, b, ?_, hnb⟩
            · rw [hrest]; simp
            · rw [hc, hb]
          · obtain ⟨⟨u, v, huv⟩, hshape⟩ := ih rem hlen blk hblk
            refine ⟨⟨c :: blk0 ++ u, v, ?_⟩, hshape⟩
            rw [hrest, huv]
            simp [List.append_assoc]
      · rw [if_neg hc] at hblk
        have hlen : rest.length ≤ n := by simpa using hs
        obtain ⟨⟨u, v, huv⟩, hshape⟩ := ih rest hlen blk hblk
        refine ⟨⟨c :: u, v, ?_⟩, hshape⟩
        rw [huv]; rfl

theorem braceBlocks_sound (s : List Char) :
    ∀ blk ∈ braceBlocks s,
      (∃ u v, s = u ++ blk ++ v)
      ∧ ∃ b, blk = openBrace :: (b ++ [closeBrace]) ∧ closeBrace ∉ b :=
  braceBlocksFuel_sound s.length s (Nat.le_refl _)

theorem braceBlocks_eq_nil_aux (n : Nat) : ∀ (s : List Char), s.length ≤ n →
    (braceBlocksFuel n s = []
      ↔ ¬ ∃ u m v, s = u ++ openBrace :: (m ++ closeBrace :: v)) := by
  induction n with
  | zero =>
    intro s hs
    have hnil : s = [] := List.length_eq_zero.mp (Nat.le_zero.mp hs)
    subst hnil
    simp [braceBlocksFuel]
  | succ n ih =>
    intro s hs
    match s with
    | [] => simp [braceBlocksFuel]
    | c :: rest =>
      rw [braceBlocksFuel]
      by_cases hc : c = openBrace
      · rw [if_pos hc]
        cases heq : upToClose rest with
        | some pr =>
          obtain ⟨blk0, rem⟩ := pr
          obtain ⟨hrest, b, hb, _⟩ := upToClose_sound rest blk0 rem heq
          constructor
          · intro habs; cases habs
          · intro hno
            exfalso
            apply hno
            refine ⟨[], b, rem, ?_⟩
            rw [List.nil_append, hc, hrest, hb]
            simp
        | none =>
          have hnc : closeBrace ∉ rest := (upToClose_eq_none rest).mp heq
          constructor
          · intro _
            rintro ⟨u, m, v, hdec⟩
            cases u with
            | nil =>
              rw [List.nil_append] at hdec
              apply hnc
              rw [List.cons.injEq] at hdec
              rw [hdec.2]
              exact List.mem_append_right m (List.mem_cons_self _ _)
            | cons d u =>
              rw [List.cons_append, List.cons.injEq] at hdec
              apply hnc
              rw [hdec.2]
              refine List.mem_append_right u ?_
              exact List.mem_cons_of_mem openBrace
                (List.mem_append_right m (List.mem_cons_self _ _))
          · intro _; rfl
      · rw [if_neg hc]
        have hlen : rest.length ≤ n := by simpa using hs
        rw [ih rest hlen]
        apply not_congr
        constructor
        · rintro ⟨u, m, v, hdec⟩
          exact ⟨c :: u, m, v, by rw [hdec]; rfl⟩
        · rintro ⟨u, m, v, hdec⟩
          cases u with
          | nil =>
            rw [List.nil_append, List.cons.injEq] at hdec
            exact absurd hdec.1 hc
          | cons d u =>
            rw [List.cons_append, List.cons.injEq] at hdec
            exact ⟨u, m, v, hdec.2⟩

theorem braceBlocks_eq_nil (s : List Char) :
    braceBlocks s = []
      ↔ ¬ ∃ u m v, s = u ++ openBrace :: (m ++ closeBrace :: v) :=
  braceBlocks_eq_nil_aux s.length s (Nat.le_refl _)

/-- C5 counterexample: for the response `` ```json```x``` `` — which has the
form `` ```json `` + body + `` ``` `` with body `` ```x `` — the cleaning
chain yields `x`, not the fenced body (and not the body stripped of
whitespace either), so the claim's universal statement fails as written. -/
theorem cleanResponse_full_form_fails :
    "```json```x```".toList = fenceJson ++ "```x".toList ++ fence
    ∧ cleanResponse ("```json```x```".toList) = "x".toList
    ∧ pyStrip ("```x".toList) = "```x".toList
    ∧ "x".toList ≠ "```x".toList := by decide

/-- C5 (amended): the pipeline parses LLM output as JSON only after
ad hoc fence handling.  (1) For every response of the form
`` ```json `` + body + `` ``` `` whose body does not itself start with a
fence, the cleaning chain of `analyze_job_description` yields exactly the
body modulo surrounding whitespace.  (2-4) `extract_json_from_response`
returns the brace block captured at the first position where the
`` ```json ``-fenced pattern matches, such a block exists exactly when the
fenced shape is present, and every such block is a whitespace-fenced brace
group inside the text.  (5-6) Otherwise it returns the longest (first among
ties) of the lazily matched brace blocks, each of which is a minimal
`\x7b...\x7d` segment of the text.  (7-8) Otherwise it raises the error,
which happens exactly when no opening brace is followed by a closing
brace. -/
theorem extract_json_spec :
    (∀ body : List Char, ¬ fence <+: body →
        cleanResponse (fenceJson ++ body ++ fence) = pyStrip body)
    ∧ (∀ s blk : List Char, findFenced s = some blk →
        extract_json_from_response s = Except.ok blk
        ∧ ∃ i, headFenced (s.drop i) = some blk
            ∧ ∀ j, j < i → headFenced (s.drop j) = none)
    ∧ (∀ s blk : List Char, headFenced s = some blk →
        ∃ ws b mid post,
          s = fenceJson ++ ws ++ blk ++ mid ++ fence ++ post
          ∧ blk = openBrace :: (b ++ [closeBrace])
          ∧ ws.all pyIsSpace = true ∧ mid.all pyIsSpace = true)
    ∧ (∀ ws b mid post : List Char,
        ws.all pyIsSpace = true → mid.all pyIsSpace = true →
        (headFenced (fenceJson ++ (ws ++ (openBrace :: (b ++ ([closeBrace]
          ++ (mid ++ (fence ++ post)))))))).isSome = true)
    ∧ (∀ (s b : List Char) (bs : List (List Char)),
        findFenced s = none → braceBlocks s = b :: bs →
        extract_json_from_response s = Except.ok (maxByLen b bs)
        ∧ maxByLen b bs ∈ b :: bs
        ∧ ∀ x ∈ b :: bs, x.length ≤ (maxByLen b bs).length)
    ∧ (∀ s blk : List Char, blk ∈ braceBlocks s →
        (∃ u v, s = u ++ blk ++ v)
        ∧ ∃ b, blk = openBrace :: (b ++ [closeBrace]) ∧ closeBrace ∉ b)
    ∧ (∀ s : List Char, findFenced s = none → braceBlocks s = [] →
        extract_json_from_response s
          = Except.error "No valid JSON block found in LLM response.")
    ∧ (∀ s : List Char, braceBlocks s = []
        ↔ ¬ ∃ u m v, s = u ++ openBrace :: (m ++ closeBrace :: v)) := by
  refine ⟨cleanResponse_fenced, ?_, headFenced_sound, headFenced_complete,
    ?_, ?_, ?_, braceBlocks_eq_nil⟩
  · intro s blk h
    refine ⟨?_, findFenced_first s blk h⟩
    simp only [extract_json_from_response, h]
  · intro s b bs hn hb
    refine ⟨?_, maxByLen_mem bs b, fun x hx => maxByLen_le bs b x hx⟩
    simp only [extract_json_from_response, hn, hb]
  · intro s blk h
    exact braceBlocks_sound s blk h
  · intro s hn hb
    simp only [extract_json_from_response, hn, hb]

/-- Witness for C5 at concrete responses: a braced body inside a json
fence is recovered by the cleaning chain; a fenced response extracts its
brace group; a fence-free response extracts its longest brace block; a
brace-free response produces the error. -/
theorem extract_json_spec_witness :
    cleanResponse (fenceJson ++ "\x7ba\x7d".toList ++ fence)
        = pyStrip "\x7ba\x7d".toList
    ∧ extract_json_from_response "```json \x7b1\x7d ```".toList
        = Except.ok "\x7b1\x7d".toList
    ∧ extract_json_from_response "a \x7bq\x7d b \x7bqq\x7d".toList
        = Except.ok "\x7bqq\x7d".toList
    ∧ extract_json_from_response "abc".toList
        = Except.error "No valid JSON block found in LLM response." := by
  refine ⟨extract_json_spec.1 _ (by decide),
    (extract_json_spec.2.1 _ _ (by decide)).1, ?_,
    extract_json_spec.2.2.2.2.2.2.1 _ (by decide) (by decide)⟩
  have h := (extract_json_spec.2.2.2.2.1 "a \x7bq\x7d b \x7bqq\x7d".toList
    "\x7bq\x7d".toList ["\x7bqq\x7d".toList] (by decide) (by decide)).1
  rw [h]
  rfl

/-! ## Part 4: the FastAPI service of `src/solution.py` -/

/-- The module-level directory constants (solution.py:31-32). -/
def UPLOAD_DIR : String := "uploads"

/-- The output directory (solution.py:32). -/
def OUTPUT_DIR : String := "outputs"

/-- An HTTP error as raised via `HTTPException(status_code, detail)`. -/
structure HTTPError where
  status : Nat
  detail : String
deriving DecidableEq

/-- A Python exception in flight inside a handler: either a FastAPI
`HTTPException`, or any other exception carrying its message. -/
inductive PyErr where
  | http (e : HTTPError)
  | other (msg : String)
deriving DecidableEq

/-- The outer handler of `/generate` (solution.py:369-373): re-raise
`HTTPException`s, map any other exception to a generic 500. -/
def outerExcept (pe : PyErr) : HTTPError :=
  match pe with
  | .http e => e
  | .other msg => ⟨500, "Internal error: " ++ msg⟩

/-- The externally visible operations of one `/generate` call, in
execution order. -/
inductive Ev where
  | readResume (path : String)
  | llamaParse
  | llmExtractResume
  | llmAnalyzeJD
  | llmGenLatex
  | writeTex (name : String)
  | runPdflatex (name : String)
  | llmGenCover
  | writeCover (name : String)
deriving DecidableEq

/-- The mutable state of the service: the in-memory `file_storage` dict
(solution.py:55; newest binding first, lookup takes the first hit, which
models latest-wins dict assignment), the files under `uploads/`, and the
files under `outputs/` (names relative to the directory, with contents).
-/
structure ServerState where
  file_storage : List (String × String)
  uploadFiles : List (String × List Char)
  outputs : List (String × List Char)
deriving DecidableEq

/-- Outcomes of the external calls made during one `/generate` request.
Each field is one fallible call of the handler; `.error msg` models that
call raising an ordinary (non-HTTP) exception with message `msg`. -/
structure GenOracle where
  readResume : Except String (List Char)
  llamaParse : Except String (List Char)
  llmExtract : Except String (List Char)
  llmInvokeJD : Except String (List Char)
  jsonLoads : List Char → Except String (List Char)
  validateJD : List Char → Except String (List Char)
  llmGenLatex : Except String (List Char)
  runPdflatex : Except String Unit
  llmGenCover : Except String (List Char)
  ts : String

/-- The tail of `analyze_job_description` after the cleaning step:
`json.loads` on the cleaned text, then pydantic validation
(solution.py:199-209); each failure becomes an HTTP 500. -/
def jd_from_parsed (o : GenOracle) (cleaned : List Char) :
    Except PyErr (List Char) :=
  match o.jsonLoads cleaned with
  | .error e => .error (.http ⟨500, "Failed to parse JSON: " ++ e⟩)
  | .ok parsed =>
    match o.validateJD parsed with
    | .error e => .error (.http ⟨500, "Parsed JD JSON invalid: " ++ e⟩)
    | .ok jd => .ok jd

/-- `analyze_job_description` (solution.py:153-209): invoke the LLM
(failure becomes HTTP 500), strip the raw response, run the cleaning
chain, reject an empty result with HTTP 500, then parse and validate. -/
def analyze_job_description (o : GenOracle) : Except PyErr (List Char) :=
  match o.llmInvokeJD with
  | .error e => .error (.http ⟨500, "LLM invoke failed: " ++ e⟩)
  | .ok raw =>
    if cleanResponse (pyStrip raw) = [] then
      .error (.http ⟨500, "LLM returned an empty response."⟩)
    else jd_from_parsed o (cleanResponse (pyStrip raw))

/-- `parse_resume_with_llama` (solution.py:115-150): LlamaParse, then the
LLM extraction; the surrounding `try` re-raises every exception as HTTP
500 "LlamaParse failed".  Also returns the trace of performed calls. -/
def parse_resume_with_llama (o : GenOracle) :
    Except PyErr (List Char) × List Ev :=
  match o.llamaParse with
  | .error e =>
      (.error (.http ⟨500, "LlamaParse failed: " ++ e⟩), [.llamaParse])
  | .ok _md =>
    match o.llmExtract with
    | .error e =>
        (.error (.http ⟨500, "LlamaParse failed: " ++ e⟩),
          [.llamaParse, .llmExtractResume])
    | .ok rd => (.ok rd, [.llamaParse, .llmExtractResume])

/-- `compile_latex_to_pdf` (solution.py:375-394): write the `.tex` file
into the output directory, run `pdflatex`; on failure raise an ordinary
`RuntimeError`.  On success the `.pdf` exists in the output directory and
its path is returned. -/
def compile_latex_to_pdf (o : GenOracle) (st : ServerState)
    (latex : List Char) (fnPre : String) :
    Except String String × ServerState × List Ev :=
  let texName := fnPre ++ ".tex"
  let pdfName := fnPre ++ ".pdf"
  let st1 : ServerState := { st with outputs := (texName, latex) :: st.outputs }
  match o.runPdflatex with
  | .error e =>
      (.error ("LaTeX compilation failed: " ++ e), st1,
        [.writeTex texName, .runPdflatex pdfName])
  | .ok _ =>
      (.ok (OUTPUT_DIR ++ "/" ++ pdfName),
        { st1 with outputs := (pdfName, []) :: st1.outputs },
        [.writeTex texName, .runPdflatex pdfName])

/-- `os.path.basename`: the part of a path after the last slash. -/
def baseName (p : String) : String :=
  ⟨(p.toList.reverse.takeWhile (fun c => c ≠ '/')).reverse⟩

/-- The successful `/generate` response (solution.py:365-368). -/
structure GenResponse where
  resume_pdf_download_url : String
  cover_letter_download_url : String
deriving DecidableEq

/-- `generate_resume_and_cover_letter` (solution.py:326-373): the
`/generate` handler.  Returns the HTTP outcome, the state after the
call, and the ordered trace of external operations. -/
def generate (st : ServerState) (o : GenOracle) (resume_file_id : String) :
    Except HTTPError GenResponse × ServerState × List Ev :=
  match List.lookup resume_file_id st.file_storage with
  | none => (.error ⟨404, "Resume file not found"⟩, st, [])
  | some resume_path =>
    match o.readResume with
    | .error e =>
        (.error (outerExcept (.other e)), st, [.readResume resume_path])
    | .ok _bytes =>
      match parse_resume_with_llama o with
      | (.error pe, tr1) =>
          (.error (outerExcept pe), st, .readResume resume_path :: tr1)
      | (.ok _resume_data, tr1) =>
        match analyze_job_description o with
        | .error pe =>
            (.error (outerExcept pe), st,
              .readResume resume_path :: tr1 ++ [.llmAnalyzeJD])
        | .ok _jd =>
          match o.llmGenLatex with
          | .error e =>
              (.error (outerExcept (.other e)), st,
                .readResume resume_path :: tr1 ++ [.llmAnalyzeJD, .llmGenLatex])
          | .ok latex =>
            match compile_latex_to_pdf o st latex ("resume_" ++ o.ts) with
            | (.error e, st2, tr2) =>
                (.error (outerExcept (.other e)), st2,
                  .readResume resume_path :: tr1
                    ++ [.llmAnalyzeJD, .llmGenLatex] ++ tr2)
            | (.ok pdfPath, st2, tr2) =>
              match o.llmGenCover with
              | .error e =>
                  (.error (outerExcept (.other e)), st2,
                    .readResume resume_path :: tr1
                      ++ [.llmAnalyzeJD, .llmGenLatex] ++ tr2 ++ [.llmGenCover])
              | .ok cover =>
                let coverFn := "cover_letter_" ++ o.ts ++ ".md"
                let st3 : ServerState :=
                  { st2 with outputs := (coverFn, cover) :: st2.outputs }
                (.ok ⟨"/download-resume?file=" ++ baseName pdfPath,
                      "/download-cover-letter?file=" ++ coverFn⟩,
                  st3,
                  .readResume resume_path :: tr1
                    ++ [.llmAnalyzeJD, .llmGenLatex] ++ tr2
                    ++ [.llmGenCover, .writeCover coverFn])

/-- `os.path.splitext`'s extension component, as used by `upload_resume`
(solution.py:317): the final dot-suffix of the last path component,
except that dots leading a hidden file's name do not begin an
extension. -/
def splitextExt (filename : String) : String :=
  let base := (filename.toList.reverse.takeWhile (fun c => c ≠ '/')).reverse
  let core := base.dropWhile (fun c => c = '.')
  if core.contains '.' then
    ⟨'.' :: (core.reverse.takeWhile (fun c => c ≠ '.')).reverse⟩
  else ""

/-- One step of `upload_resume`'s loop (solution.py:315-323): draw a
fresh id from the uuid stream (`uuidGen` applied to the running index),
write the bytes under `uploads/`, and bind the id to the path in
`file_storage`. -/
def upload_resume_aux (uuidGen : Nat → String) (k : Nat) (st : ServerState) :
    List (String × List Char) → ServerState × List String
  | [] => (st, [])
  | (filename, contents) :: files =>
    let fid := uuidGen k
    let path := UPLOAD_DIR ++ "/" ++ fid ++ splitextExt filename
    let st1 : ServerState :=
      { st with
        uploadFiles := (path, contents) :: st.uploadFiles,
        file_storage := (fid, path) :: st.file_storage }
    let res := upload_resume_aux uuidGen (k + 1) st1 files
    (res.1, fid :: res.2)

/-- `upload_resume` (solution.py:312-324): the `/upload-resume` handler.
Returns the new state and the returned list of file ids, in upload
order. -/
def upload_resume (st : ServerState) (uuidGen : Nat → String)
    (files : List (String × List Char)) : ServerState × List String :=
  upload_resume_aux uuidGen 0 st files

/-- `download_resume` (solution.py:395-400): serve the file from the
output directory, or fail with 404. -/
def download_resume (st : ServerState) (file : String) :
    Except HTTPError String :=
  if (st.outputs.lookup file).isSome then .ok (OUTPUT_DIR ++ "/" ++ file)
  else .error ⟨404, "File not found"⟩

/-- `download_cover_letter` (solution.py:402-407). -/
def download_cover_letter (st : ServerState) (file : String) :
    Except HTTPError String :=
  if (st.outputs.lookup file).isSome then .ok (OUTPUT_DIR ++ "/" ++ file)
  else .error ⟨404, "File not found"⟩

/-- A process restart: the module-level dict `file_storage = \x7b\x7d`
(solution.py:55) is re-initialized, while the files on disk persist. -/
def restartServer (st : ServerState) : ServerState :=
  { file_storage := [], uploadFiles := st.uploadFiles,
    outputs := st.outputs }

/-- C8: calling `/generate` with a `resume_file_id` that is not a key of
`file_storage` fails with HTTP 404 and detail "Resume file not found";
on this path the state is unchanged and no external operation runs. -/
theorem generate_unknown_id (st : ServerState) (o : GenOracle)
    (rid : String) (h : List.lookup rid st.file_storage = none) :
    generate st o rid
      = (Except.error ⟨404, "Resume file not found"⟩, st, []) := by
  rw [generate, h]

/-- Witness for C8: the fresh server state maps no id, so `/generate`
404s and changes nothing. -/
theorem generate_unknown_id_witness :
    generate ⟨[], [], []⟩
      ⟨Except.ok [], Except.ok [], Except.ok [], Except.ok [],
        fun _ => Except.ok [], fun _ => Except.ok [],
        Except.ok [], Except.ok (), Except.ok [], "20250101"⟩ "missing"
      = (Except.error ⟨404, "Resume file not found"⟩, ⟨[], [], []⟩, []) :=
  generate_unknown_id _ _ _ rfl

theorem parse_resume_cases (o : GenOracle) :
    (∃ rd, (parse_resume_with_llama o).1 = Except.ok rd)
    ∨ ∃ d, (parse_resume_with_llama o).1 = Except.error (.http ⟨500, d⟩) := by
  rw [parse_resume_with_llama]
  cases o.llamaParse with
  | error e => right; exact ⟨_, rfl⟩
  | ok md =>
    cases o.llmExtract with
    | error e => right; exact ⟨_, rfl⟩
    | ok rd => left; exact ⟨rd, rfl⟩

theorem jd_from_parsed_cases (o : GenOracle) (cleaned : List Char) :
    (∃ jd, jd_from_parsed o cleaned = Except.ok jd)
    ∨ ∃ d, jd_from_parsed o cleaned = Except.error (.http ⟨500, d⟩) := by
  rw [jd_from_parsed]
  split
  · right; exact ⟨_, rfl⟩
  · split
    · right; exact ⟨_, rfl⟩
    · left; exact ⟨_, rfl⟩

theorem analyze_cases (o : GenOracle) :
    (∃ jd, analyze_job_description o = Except.ok jd)
    ∨ ∃ d, analyze_job_description o = Except.error (.http ⟨500, d⟩) := by
  rw [analyze_job_description]
  split
  · right; exact ⟨_, rfl⟩
  · split
    · right; exact ⟨_, rfl⟩
    · exact jd_from_parsed_cases o _

theorem generate_error_statuses (st : ServerState) (o : GenOracle)
    (rid : String) (e : HTTPError)
    (h : (generate st o rid).1 = Except.error e) :
    e.status = 500 ∨ e = ⟨404, "Resume file not found"⟩ := by
  rw [generate] at h
  split at h
  · right
    simpa using h.symm
  · split at h
    · -- reading the stored resume file raised
      rename_i er heq
      left
      have he : outerExcept (.other er) = e := by simpa using h
      rw [← he]
      rfl
    · split at h
      · -- parse_resume_with_llama raised
        next pe tr1 heq =>
          have he : outerExcept pe = e := by simpa using h
          rcases parse_resume_cases o with ⟨rd, hok⟩ | ⟨d, herr⟩
          · rw [heq] at hok
            replace hok : (Except.error pe : Except PyErr (List Char))
                = Except.ok rd := hok
            cases hok
          · rw [heq] at herr
            replace herr : (Except.error pe : Except PyErr (List Char))
                = Except.error (PyErr.http ⟨500, d⟩) := herr
            injection herr with h2
            subst h2
            left
            rw [← he]
            rfl
      · split at h
        · -- analyze_job_description raised
          next pe heq =>
            have he : outerExcept pe = e := by simpa using h
            rcases analyze_cases o with ⟨jd, hok⟩ | ⟨d, herr⟩
            · rw [heq] at hok; cases hok
            · rw [heq] at herr
              injection herr with h2
              subst h2
              left
              rw [← he]
              rfl
        · split at h
          · -- the LaTeX-generation LLM call raised
            rename_i er heq
            left
            have he : outerExcept (.other er) = e := by simpa using h
            rw [← he]
            rfl
          · split at h
            · -- pdflatex failed
              rename_i er st2 tr2 heq
              left
              have he : outerExcept (.other er) = e := by simpa using h
              rw [← he]
              rfl
            · split at h
              · -- the cover-letter LLM call raised
                rename_i er heq
                left
                have he : outerExcept (.other er) = e := by simpa using h
                rw [← he]
                rfl
              · -- success: no error to analyze
                simp at h

theorem download_resume_errors (st : ServerState) (f : String)
    (e : HTTPError) (h : download_resume st f = Except.error e) :
    e = ⟨404, "File not found"⟩ := by
  rw [download_resume] at h
  by_cases hs : (st.outputs.lookup f).isSome = true
  · rw [if_pos hs] at h; cases h
  · rw [if_neg hs] at h
    injection h with h1
    exact h1.symm

theorem download_cover_errors (st : ServerState) (f : String)
    (e : HTTPError) (h : download_cover_letter st f = Except.error e) :
    e = ⟨404, "File not found"⟩ := by
  rw [download_cover_letter] at h
  by_cases hs : (st.outputs.lookup f).isSome = true
  · rw [if_pos hs] at h; cases h
  · rw [if_neg hs] at h
    injection h with h1
    exact h1.symm

/-- C4 counterexample: requesting a missing file from the download
endpoint fails with HTTP 404, not with a generic 500, so not every
failure of the pipeline's HTTP operations is a 500. -/
theorem download_missing_is_404_not_500 :
    download_resume ⟨[], [], []⟩ "resume.pdf"
      = Except.error ⟨404, "File not found"⟩
    ∧ (404 : Nat) ≠ 500 :=
  ⟨rfl, by decide⟩

/-- C4 (amended): every failure of `/generate` is either the deliberate
404 for an unknown `resume_file_id` or an HTTP 500 (raised by an inner
step or produced by the catch-all handler); every failure of the two
download endpoints is the deliberate 404 "File not found".  No other
status code occurs. -/
theorem http_failure_statuses :
    (∀ (st : ServerState) (o : GenOracle) (rid : String) (e : HTTPError),
        (generate st o rid).1 = Except.error e →
        e.status = 500 ∨ e = ⟨404, "Resume file not found"⟩)
    ∧ (∀ (st : ServerState) (f : String) (e : HTTPError),
        download_resume st f = Except.error e → e = ⟨404, "File not found"⟩)
    ∧ (∀ (st : ServerState) (f : String) (e : HTTPError),
        download_cover_letter st f = Except.error e →
        e = ⟨404, "File not found"⟩) :=
  ⟨generate_error_statuses, download_resume_errors, download_cover_errors⟩

/-- Witness for C4 at concrete calls: a `/generate` whose file read
raises gets a 500; a download of an absent file gets the 404. -/
theorem http_failure_statuses_witness :
    ((⟨500, "Internal error: boom"⟩ : HTTPError).status = 500
      ∨ (⟨500, "Internal error: boom"⟩ : HTTPError)
          = ⟨404, "Resume file not found"⟩)
    ∧ (⟨404, "File not found"⟩ : HTTPError) = ⟨404, "File not found"⟩ := by
  constructor
  · exact http_failure_statuses.1
      ⟨[("id", "uploads/r.pdf")], [("uploads/r.pdf", [])], []⟩
      ⟨Except.error "boom", Except.ok [], Except.ok [], Except.ok [],
        fun _ => Except.ok [], fun _ => Except.ok [],
        Except.ok [], Except.ok (), Except.ok [], "20250101"⟩
      "id" ⟨500, "Internal error: boom"⟩ rfl
  · exact http_failure_statuses.2.1 ⟨[], [], []⟩ "cv.md"
      ⟨404, "File not found"⟩ rfl

theorem takeWhile_all_append (p : Char → Bool) (l t : List Char)
    (h : ∀ x ∈ l, p x = true) :
    (l ++ t).takeWhile p = l ++ t.takeWhile p := by
  induction l with
  | nil => rfl
  | cons x l ih =>
    rw [List.cons_append, List.takeWhile_cons,
      if_pos (h x (List.mem_cons_self x l)),
      ih (fun y hy => h y (List.mem_cons_of_mem x hy))]
    rfl

theorem baseName_append (d n : String) (h : ('/' : Char) ∉ n.toList) :
    baseName (d ++ "/" ++ n) = n := by
  rw [baseName]
  have h1 : (d ++ "/" ++ n).toList = (d.toList ++ ['/']) ++ n.toList := rfl
  rw [h1, List.reverse_append]
  have h2 : (d.toList ++ ['/']).reverse = '/' :: d.toList.reverse := by
    rw [List.reverse_append]
    rfl
  rw [h2]
  rw [takeWhile_all_append _ _ _ ?hall]
  case hall =>
    intro x hx
    have hxx : x ∈ n.toList := List.mem_reverse.mp hx
    exact decide_eq_true (fun hc => h (hc ▸ hxx))
  rw [List.takeWhile_cons, if_neg (by simp)]
  rw [List.append_nil, List.reverse_reverse]
  rfl

/-- C6: on every successful `/generate` call the operations run in the
fixed order: read the stored resume file, LlamaParse it, turn the parse
into structured resume data with the LLM, analyze the job description,
generate the LaTeX resume, write the `.tex` and compile it to a PDF in
the output directory, generate the cover letter and write it to the
output directory; the response carries the download URLs of exactly the
two produced files. -/
theorem generate_success_pipeline
    (st : ServerState) (o : GenOracle) (rid path : String)
    (bytes md rd jd latex cover : List Char)
    (hl : List.lookup rid st.file_storage = some path)
    (hread : o.readResume = Except.ok bytes)
    (hmd : o.llamaParse = Except.ok md)
    (hex : o.llmExtract = Except.ok rd)
    (hjd : analyze_job_description o = Except.ok jd)
    (hlx : o.llmGenLatex = Except.ok latex)
    (hpdf : o.runPdflatex = Except.ok ())
    (hcv : o.llmGenCover = Except.ok cover)
    (hts : ('/' : Char) ∉ o.ts.toList) :
    generate st o rid
      = (Except.ok
          ⟨"/download-resume?file=" ++ ("resume_" ++ o.ts ++ ".pdf"),
            "/download-cover-letter?file=" ++ ("cover_letter_" ++ o.ts ++ ".md")⟩,
        { st with outputs :=
            ("cover_letter_" ++ o.ts ++ ".md", cover)
              :: ("resume_" ++ o.ts ++ ".pdf", [])
              :: ("resume_" ++ o.ts ++ ".tex", latex) :: st.outputs },
        [Ev.readResume path, Ev.llamaParse, Ev.llmExtractResume,
          Ev.llmAnalyzeJD, Ev.llmGenLatex,
          Ev.writeTex ("resume_" ++ o.ts ++ ".tex"),
          Ev.runPdflatex ("resume_" ++ o.ts ++ ".pdf"), Ev.llmGenCover,
          Ev.writeCover ("cover_letter_" ++ o.ts ++ ".md")]) := by
  have hb : baseName (OUTPUT_DIR ++ "/" ++ ("resume_" ++ o.ts ++ ".pdf"))
      = "resume_" ++ o.ts ++ ".pdf" := by
    apply baseName_append
    intro hmem
    have hsplit : ("resume_" ++ o.ts ++ ".pdf").toList
        = ("resume_".toList ++ o.ts.toList) ++ ".pdf".toList := rfl
    rw [hsplit] at hmem
    rcases List.mem_append.mp hmem with hmem | hmem
    · rcases List.mem_append.mp hmem with hmem | hmem
      · simp at hmem
      · exact hts hmem
    · simp at hmem
  simp only [generate, hl, hread, parse_resume_with_llama, hmd, hex, hjd,
    hlx, compile_latex_to_pdf, hpdf, hcv, hb]
  simp [List.append_assoc]

/-- Witness for C6: a concrete all-successful `/generate` call produces
exactly the fixed trace, the three output files, and the two download
URLs. -/
theorem generate_success_pipeline_witness :
    generate ⟨[("id", "uploads/r.pdf")], [("uploads/r.pdf", [])], []⟩
      ⟨Except.ok [], Except.ok [], Except.ok [],
        Except.ok "\x7b\x7d".toList, fun s => Except.ok s,
        fun s => Except.ok s, Except.ok "L".toList, Except.ok (),
        Except.ok "C".toList, "20250101"⟩ "id"
      = (Except.ok ⟨"/download-resume?file=resume_20250101.pdf",
            "/download-cover-letter?file=cover_letter_20250101.md"⟩,
        ⟨[("id", "uploads/r.pdf")], [("uploads/r.pdf", [])],
          [("cover_letter_20250101.md", "C".toList),
            ("resume_20250101.pdf", []),
            ("resume_20250101.tex", "L".toList)]⟩,
        [Ev.readResume "uploads/r.pdf", Ev.llamaParse, Ev.llmExtractResume,
          Ev.llmAnalyzeJD, Ev.llmGenLatex, Ev.writeTex "resume_20250101.tex",
          Ev.runPdflatex "resume_20250101.pdf", Ev.llmGenCover,
          Ev.writeCover "cover_letter_20250101.md"]) := by
  have h := generate_success_pipeline
    ⟨[("id", "uploads/r.pdf")], [("uploads/r.pdf", [])], []⟩
    ⟨Except.ok [], Except.ok [], Except.ok [],
      Except.ok "\x7b\x7d".toList, fun s => Except.ok s,
      fun s => Except.ok s, Except.ok "L".toList, Except.ok (),
      Except.ok "C".toList, "20250101"⟩
    "id" "uploads/r.pdf" [] [] [] "\x7b\x7d".toList "L".toList "C".toList
    rfl rfl rfl rfl rfl rfl rfl rfl (by decide)
  rw [h]
  rfl

/-- The upload-directory entries created by one `/upload-resume` call,
in upload order: for the `j`-th file the path is `uploads/` + fresh id +
the original extension, and the stored contents are the uploaded bytes. -/
def newUploadEntries (ug : Nat → String) :
    Nat → List (String × List Char) → List (String × List Char)
  | _, [] => []
  | k, (fn, bytes) :: files =>
      (UPLOAD_DIR ++ "/" ++ ug k ++ splitextExt fn, bytes)
        :: newUploadEntries ug (k + 1) files

/-- The `file_storage` bindings created by one `/upload-resume` call, in
upload order. -/
def newStoragePairs (ug : Nat → String) :
    Nat → List (String × List Char) → List (String × String)
  | _, [] => []
  | k, (fn, _) :: files =>
      (ug k, UPLOAD_DIR ++ "/" ++ ug k ++ splitextExt fn)
        :: newStoragePairs ug (k + 1) files

/-- The ids returned by one `/upload-resume` call, in upload order. -/
def newIds (ug : Nat → String) :
    Nat → List (String × List Char) → List String
  | _, [] => []
  | k, _ :: files => ug k :: newIds ug (k + 1) files

theorem upload_resume_aux_spec (ug : Nat → String)
    (files : List (String × List Char)) : ∀ (k : Nat) (st : ServerState),
    upload_resume_aux ug k st files
      = ({ st with
            uploadFiles :=
              (newUploadEntries ug k files).reverse ++ st.uploadFiles,
            file_storage :=
              (newStoragePairs ug k files).reverse ++ st.file_storage },
          newIds ug k files) := by
  induction files with
  | nil =>
    intro k st
    simp [upload_resume_aux, newUploadEntries, newStoragePairs, newIds]
  | cons f files ih =>
    intro k st
    obtain ⟨fn, bytes⟩ := f
    simp only [upload_resume_aux]
    rw [ih (k + 1)]
    simp [newUploadEntries, newStoragePairs, newIds, List.append_assoc]

/-- C7: the only state effects of `/upload-resume` are adding the
uploaded bytes as new files under the uploads directory and adding one
id-to-path binding per file to the in-memory `file_storage`; the output
directory is untouched; and a process restart clears `file_storage`
while the disk persists, so the mapping survives nowhere else. -/
theorem upload_resume_effects :
    (∀ (st : ServerState) (ug : Nat → String)
        (files : List (String × List Char)),
      (upload_resume st ug files).1.outputs = st.outputs
      ∧ (upload_resume st ug files).1.uploadFiles
          = (newUploadEntries ug 0 files).reverse ++ st.uploadFiles
      ∧ (upload_resume st ug files).1.file_storage
          = (newStoragePairs ug 0 files).reverse ++ st.file_storage
      ∧ (upload_resume st ug files).2 = newIds ug 0 files
      ∧ (∀ pr ∈ newStoragePairs ug 0 files,
          ∃ rest, pr.2 = UPLOAD_DIR ++ "/" ++ rest))
    ∧ (∀ st : ServerState,
        (restartServer st).file_storage = []
        ∧ (restartServer st).uploadFiles = st.uploadFiles
        ∧ (restartServer st).outputs = st.outputs) := by
  constructor
  · intro st ug files
    rw [upload_resume, upload_resume_aux_spec ug files 0 st]
    refine ⟨rfl, rfl, rfl, rfl, ?_⟩
    have hgen : ∀ k, ∀ pr ∈ newStoragePairs ug k files,
        ∃ rest, pr.2 = UPLOAD_DIR ++ "/" ++ rest := by
      induction files with
      | nil => intro k pr hpr; simp [newStoragePairs] at hpr
      | cons f files ih =>
        intro k pr hpr
        obtain ⟨fn, bytes⟩ := f
        rw [newStoragePairs] at hpr
        rcases List.mem_cons.mp hpr with hpr | hpr
        · subst hpr
          exact ⟨ug k ++ splitextExt fn, by
            rw [String.append_assoc]⟩
        · exact ih (k + 1) pr hpr
    exact hgen 0
  · intro st
    exact ⟨rfl, rfl, rfl⟩

/-- Witness for C7 at one concrete upload: the output directory is
untouched and the single new binding's path lies under `uploads/`. -/
theorem upload_resume_effects_witness :
    (upload_resume ⟨[], [], []⟩ (fun _ => "u1") [("r.pdf", ['a'])]).1.outputs
        = []
    ∧ ∃ rest,
        (("u1", "uploads/u1.pdf") : String × String).2
          = UPLOAD_DIR ++ "/" ++ rest := by
  constructor
  · exact (upload_resume_effects.1 ⟨[], [], []⟩ (fun _ => "u1")
      [("r.pdf", ['a'])]).1
  · exact (upload_resume_effects.1 ⟨[], [], []⟩ (fun _ => "u1")
      [("r.pdf", ['a'])]).2.2.2.2 ("u1", "uploads/u1.pdf") (by decide)

theorem newIds_length (ug : Nat → String) :
    ∀ (files : List (String × List Char)) (k : Nat),
      (newIds ug k files).length = files.length := by
  intro files
  induction files with
  | nil => intro k; rfl
  | cons f files ih => intro k; simp [newIds, ih (k + 1)]

theorem newIds_getD (ug : Nat → String) :
    ∀ (files : List (String × List Char)) (k i : Nat), i < files.length →
      (newIds ug k files).getD i "" = ug (k + i) := by
  intro files
  induction files with
  | nil => intro k i hi; simp at hi
  | cons f files ih =>
    intro k i hi
    cases i with
    | zero => simp [newIds]
    | succ i =>
      simp only [newIds, List.getD_cons_succ]
      rw [ih (k + 1) i (by simpa using hi)]
      congr 1
      omega

theorem mem_newStoragePairs (ug : Nat → String) :
    ∀ (files : List (String × List Char)) (k : Nat) (pr : String × String),
      pr ∈ newStoragePairs ug k files
        ↔ ∃ j, j < files.length
            ∧ pr = (ug (k + j),
                UPLOAD_DIR ++ "/" ++ ug (k + j)
                  ++ splitextExt (files.getD j ("", [])).1) := by
  intro files
  induction files with
  | nil => intro k pr; simp [newStoragePairs]
  | cons f files ih =>
    intro k pr
    obtain ⟨fn, bytes⟩ := f
    constructor
    · intro h
      rw [newStoragePairs] at h
      rcases List.mem_cons.mp h with h | h
      · exact ⟨0, by simp, by simpa using h⟩
      · obtain ⟨j, hj, hpr⟩ := (ih (k + 1) pr).mp h
        refine ⟨j + 1, by simpa using Nat.succ_lt_succ hj, ?_⟩
        rw [hpr]
        have he : k + 1 + j = k + (j + 1) := by omega
        rw [he]
        rfl
    · rintro ⟨j, hj, hpr⟩
      rw [newStoragePairs]
      cases j with
      | zero =>
        rw [hpr]
        exact List.mem_cons_self _ _
      | succ j =>
        refine List.mem_cons_of_mem _ ?_
        apply (ih (k + 1) pr).mpr
        refine ⟨j, by simpa using hj, ?_⟩
        rw [hpr]
        have he : k + 1 + j = k + (j + 1) := by omega
        rw [he]
        rfl

theorem lookup_eq_of_mem_uniq :
    ∀ (l : List (String × String)) (key v : String),
      (key, v) ∈ l → (∀ p ∈ l, p.1 = key → p.2 = v) →
      List.lookup key l = some v := by
  intro l
  induction l with
  | nil => intro key v h _; simp at h
  | cons p l ih =>
    intro key v hmem huniq
    obtain ⟨k0, v0⟩ := p
    rw [List.lookup_cons]
    cases hbeq : key == k0 with
    | true =>
      have hk : k0 = key := (beq_iff_eq.mp hbeq).symm
      have := huniq (k0, v0) (List.mem_cons_self _ _) hk
      simpa using this
    | false =>
      have hne : key ≠ k0 := by
        intro hc
        rw [hc] at hbeq
        simp at hbeq
      rcases List.mem_cons.mp hmem with hmem | hmem
      · exact absurd (congrArg Prod.fst hmem) hne
      · exact ih key v hmem (fun q hq => huniq q (List.mem_cons_of_mem _ hq))

theorem compile_file_storage (o : GenOracle) (st : ServerState)
    (latex : List Char) (p : String) :
    (compile_latex_to_pdf o st latex p).2.1.file_storage = st.file_storage := by
  rw [compile_latex_to_pdf]
  cases o.runPdflatex <;> rfl

theorem generate_file_storage (st : ServerState) (o : GenOracle)
    (rid : String) :
    ((generate st o rid).2.1).file_storage = st.file_storage := by
  rw [generate]
  split
  · rfl
  · split
    · rfl
    · split
      · rfl
      · split
        · rfl
        · split
          · rfl
          · rename_i scr0 latex0 heqlx
            split
            · rename_i scr1 cres st2 tr2 heq
              have hc := compile_file_storage o st latex0 ("resume_" ++ o.ts)
              rw [heq] at hc
              exact hc
            · rename_i scr1 pdfPath st2 tr2 heq
              split
              · have hc := compile_file_storage o st latex0 ("resume_" ++ o.ts)
                rw [heq] at hc
                exact hc
              · have hc := compile_file_storage o st latex0 ("resume_" ++ o.ts)
                rw [heq] at hc
                exact hc

/-- C9: `/upload-resume` returns one fresh id per uploaded file, in
upload order; afterwards each returned id is a `file_storage` key bound
to a path in the uploads directory carrying the original file's
extension; uploads and `/generate` both preserve the invariant that all
`file_storage` values are paths under the uploads directory.  Freshness
and distinctness of the drawn uuids are assumptions on the uuid
stream. -/
theorem upload_resume_ids_spec
    (st : ServerState) (ug : Nat → String)
    (files : List (String × List Char))
    (hfresh : ∀ i, i < files.length → ∀ p ∈ st.file_storage, ug i ≠ p.1)
    (hinj : ∀ i j, i < files.length → j < files.length →
        ug i = ug j → i = j) :
    ((upload_resume st ug files).2).length = files.length
    ∧ (∀ i, i < files.length →
        (upload_resume st ug files).2.getD i "" = ug i)
    ∧ (∀ i, i < files.length →
        List.lookup (ug i) ((upload_resume st ug files).1).file_storage
          = some (UPLOAD_DIR ++ "/" ++ ug i
              ++ splitextExt (files.getD i ("", [])).1))
    ∧ ((∀ p ∈ st.file_storage, ∃ rest, p.2 = UPLOAD_DIR ++ "/" ++ rest) →
        ∀ p ∈ ((upload_resume st ug files).1).file_storage,
          ∃ rest, p.2 = UPLOAD_DIR ++ "/" ++ rest)
    ∧ (∀ (st2 : ServerState) (o : GenOracle) (rid : String),
        ((generate st2 o rid).2.1).file_storage = st2.file_storage) := by
  have hspec := upload_resume_aux_spec ug files 0 st
  rw [upload_resume, hspec]
  refine ⟨newIds_length ug files 0, ?_, ?_, ?_,
    fun st2 o rid => generate_file_storage st2 o rid⟩
  · intro i hi
    simpa using newIds_getD ug files 0 i hi
  · intro i hi
    apply lookup_eq_of_mem_uniq
    · apply List.mem_append_left
      rw [List.mem_reverse]
      apply (mem_newStoragePairs ug files 0 _).mpr
      refine ⟨i, hi, ?_⟩
      rw [Nat.zero_add]
    · intro p hp hpk
      rcases List.mem_append.mp hp with hp | hp
      · rw [List.mem_reverse] at hp
        obtain ⟨j, hj, hpr⟩ := (mem_newStoragePairs ug files 0 p).mp hp
        have hpk2 : ug j = ug i := by
          rw [hpr] at hpk
          simpa [Nat.zero_add] using hpk
        have hji : j = i := hinj j i hj hi hpk2
        subst hji
        rw [hpr]
        simp [Nat.zero_add]
      · exact absurd hpk.symm (hfresh i hi p hp)
  · intro hinv p hp
    rcases List.mem_append.mp hp with hp | hp
    · rw [List.mem_reverse] at hp
      obtain ⟨j, hj, hpr⟩ := (mem_newStoragePairs ug files 0 p).mp hp
      rw [hpr]
      exact ⟨ug (0 + j) ++ splitextExt (files.getD j ("", [])).1,
        by rw [String.append_assoc]⟩
    · exact hinv p hp

/-- Witness for C9 at one concrete upload into the fresh state: one id
comes back, in order, and it is bound to the uploads path carrying the
original `.pdf` extension. -/
theorem upload_resume_ids_spec_witness :
    (upload_resume ⟨[], [], []⟩ (fun _ => "u0") [("r.pdf", ['a'])]).2.length
        = 1
    ∧ (upload_resume ⟨[], [], []⟩ (fun _ => "u0")
        [("r.pdf", ['a'])]).2.getD 0 "" = "u0"
    ∧ List.lookup "u0"
        ((upload_resume ⟨[], [], []⟩ (fun _ => "u0")
          [("r.pdf", ['a'])]).1).file_storage
        = some "uploads/u0.pdf" := by
  have h := upload_resume_ids_spec ⟨[], [], []⟩ (fun _ => "u0")
    [("r.pdf", ['a'])]
    (fun _ _ p hp => absurd hp (List.not_mem_nil p))
    (fun i j hi hj _ => by simp at hi hj; omega)
  refine ⟨h.1, h.2.1 0 (by decide), ?_⟩
  have h3 := h.2.2.1 0 (by decide)
  rw [h3]
  rfl

/-! ## Part 5: the timesheet service of `src/array_products.py` -/

/-- A contractor row (array_products.py:46-52): primary key, nullable
`pay_rate`, approval flag.  Monetary amounts are modelled as rationals;
the claim under check concerns which formula is used, not float
rounding. -/
structure Contractor where
  id : Nat
  pay_rate : Option Rat
  approved : Bool
deriving DecidableEq

/-- A timesheet row (array_products.py:54-62). -/
structure Timesheet where
  contractor_id : Nat
  month : String
  hours_by_day : List (String × Rat)
  total_pay : Rat
  image_urls : List String
deriving DecidableEq

/-- The database state relevant to the `/timesheets` POST route. -/
structure TsDB where
  contractors : List Contractor
  timesheets : List Timesheet
deriving DecidableEq

/-- Python truthiness of the `contractor_id` field: `None` and `0` are
falsy (array_products.py:133). -/
def truthyId : Option Nat → Bool
  | none => false
  | some n => n != 0

/-- Python truthiness of the `month` field: `None` and `""` are falsy. -/
def truthyMonth : Option String → Bool
  | none => false
  | some s => s != ""

/-- Python truthiness of the `hours_by_day` field: `None` and the empty
mapping are falsy. -/
def truthyHours : Option (List (String × Rat)) → Bool
  | none => false
  | some h => h != []

/-- `Contractor.query.get(contractor_id)`: primary-key lookup. -/
def findContractor (db : TsDB) (cid : Nat) : Option Contractor :=
  db.contractors.find? (fun c => c.id == cid)

/-- `submit_timesheet` (array_products.py:125-156): reject when a
required field is falsy; look up the contractor and reject when it is
missing or not approved; compute
`total_pay = total_hours * pay_rate if pay_rate else 0`; insert the
timesheet row; answer 201. -/
def submit_timesheet (db : TsDB) (contractor_id : Option Nat)
    (month : Option String) (hours_by_day : Option (List (String × Rat)))
    (image_urls : List String) : (Nat × String) × TsDB :=
  if ¬ (truthyId contractor_id && truthyMonth month
      && truthyHours hours_by_day) then
    ((400, "Missing required fields"), db)
  else
    match contractor_id, month, hours_by_day with
    | some cid, some m, some hbd =>
      match findContractor db cid with
      | none => ((400, "Invalid contractor ID or not approved"), db)
      | some c =>
        if c.approved = false then
          ((400, "Invalid contractor ID or not approved"), db)
        else
          let total_pay : Rat :=
            match c.pay_rate with
            | some r => if r ≠ 0 then (hbd.map Prod.snd).sum * r else 0
            | none => 0
          ((201, "Timesheet submitted successfully"),
            { db with timesheets := db.timesheets
                ++ [⟨cid, m, hbd, total_pay, image_urls⟩] })
    | _, _, _ => ((400, "Missing required fields"), db)

/-- C10 counterexample: `all([contractor_id, month, hours_by_day])` uses
Python truthiness, so an approved contractor with a set, non-zero pay
rate is rejected as "Missing required fields" — and no timesheet row is
stored — whenever any required field is falsy: the empty `hours_by_day`
mapping, the empty month string, or contractor id `0`.  Each case
refutes the claim's universal "every hours_by_day mapping" reading at an
approved contractor. -/
theorem submit_timesheet_falsy_fields_rejected :
    submit_timesheet ⟨[⟨1, some 10, true⟩], []⟩ (some 1) (some "June")
        (some []) []
      = ((400, "Missing required fields"), ⟨[⟨1, some 10, true⟩], []⟩)
    ∧ submit_timesheet ⟨[⟨1, some 10, true⟩], []⟩ (some 1) (some "")
        (some [("1", 8)]) []
      = ((400, "Missing required fields"), ⟨[⟨1, some 10, true⟩], []⟩)
    ∧ submit_timesheet ⟨[⟨0, some 10, true⟩], []⟩ (some 0) (some "June")
        (some [("1", 8)]) []
      = ((400, "Missing required fields"), ⟨[⟨0, some 10, true⟩], []⟩)
    ∧ (submit_timesheet ⟨[⟨1, some 10, true⟩], []⟩ (some 1) (some "June")
        (some []) []).2.timesheets = [] :=
  ⟨rfl, rfl, rfl, rfl⟩

/-- C10 (amended): for every submission whose three required fields are
truthy — non-zero contractor id, non-empty month, non-empty
`hours_by_day` mapping — and whose contractor is approved, the stored
`total_pay` is the sum of the hours multiplied by `pay_rate` when
`pay_rate` is set and non-zero, and `0` when `pay_rate` is unset or
zero; the submission is rejected with HTTP 400 when the contractor does
not exist or is not approved, and likewise (as "Missing required
fields") whenever any required field is falsy. -/
theorem submit_timesheet_spec :
    (∀ (db : TsDB) (cid : Nat) (m : String) (hbd : List (String × Rat))
        (urls : List String) (c : Contractor) (r : Rat),
      cid ≠ 0 → m ≠ "" → hbd ≠ [] →
      findContractor db cid = some c → c.approved = true →
      c.pay_rate = some r → r ≠ 0 →
      submit_timesheet db (some cid) (some m) (some hbd) urls
        = ((201, "Timesheet submitted successfully"),
          { db with timesheets := db.timesheets
              ++ [⟨cid, m, hbd, (hbd.map Prod.snd).sum * r, urls⟩] }))
    ∧ (∀ (db : TsDB) (cid : Nat) (m : String) (hbd : List (String × Rat))
        (urls : List String) (c : Contractor),
      cid ≠ 0 → m ≠ "" → hbd ≠ [] →
      findContractor db cid = some c → c.approved = true →
      (c.pay_rate = none ∨ c.pay_rate = some 0) →
      submit_timesheet db (some cid) (some m) (some hbd) urls
        = ((201, "Timesheet submitted successfully"),
          { db with timesheets := db.timesheets
              ++ [⟨cid, m, hbd, 0, urls⟩] }))
    ∧ (∀ (db : TsDB) (cid : Nat) (m : String) (hbd : List (String × Rat))
        (urls : List String),
      cid ≠ 0 → m ≠ "" → hbd ≠ [] →
      findContractor db cid = none →
      submit_timesheet db (some cid) (some m) (some hbd) urls
        = ((400, "Invalid contractor ID or not approved"), db))
    ∧ (∀ (db : TsDB) (cid : Nat) (m : String) (hbd : List (String × Rat))
        (urls : List String) (c : Contractor),
      cid ≠ 0 → m ≠ "" → hbd ≠ [] →
      findContractor db cid = some c → c.approved = false →
      submit_timesheet db (some cid) (some m) (some hbd) urls
        = ((400, "Invalid contractor ID or not approved"), db))
    ∧ (∀ (db : TsDB) (contractor_id : Option Nat) (month : Option String)
        (hours_by_day : Option (List (String × Rat))) (urls : List String),
      (truthyId contractor_id && truthyMonth month
          && truthyHours hours_by_day) = false →
      submit_timesheet db contractor_id month hours_by_day urls
        = ((400, "Missing required fields"), db)) := by
  refine ⟨?_, ?_, ?_, ?_, ?_⟩
  · intro db cid m hbd urls c r hcid hm hhbd hfind happ hpr hr
    have htrue : (truthyId (some cid) && truthyMonth (some m)
        && truthyHours (some hbd)) = true := by
      simp [truthyId, truthyMonth, truthyHours, hcid, hm, hhbd]
    simp only [submit_timesheet, htrue, hfind, happ, hpr]
    simp [hr]
  · intro db cid m hbd urls c hcid hm hhbd hfind happ hpr
    have htrue : (truthyId (some cid) && truthyMonth (some m)
        && truthyHours (some hbd)) = true := by
      simp [truthyId, truthyMonth, truthyHours, hcid, hm, hhbd]
    rcases hpr with hpr | hpr <;>
      simp [submit_timesheet, htrue, hfind, happ, hpr]
  · intro db cid m hbd urls hcid hm hhbd hfind
    have htrue : (truthyId (some cid) && truthyMonth (some m)
        && truthyHours (some hbd)) = true := by
      simp [truthyId, truthyMonth, truthyHours, hcid, hm, hhbd]
    simp [submit_timesheet, htrue, hfind]
  · intro db cid m hbd urls c hcid hm hhbd hfind happ
    have htrue : (truthyId (some cid) && truthyMonth (some m)
        && truthyHours (some hbd)) = true := by
      simp [truthyId, truthyMonth, truthyHours, hcid, hm, hhbd]
    simp [submit_timesheet, htrue, hfind, happ]
  · intro db contractor_id month hours_by_day urls hfalse
    rw [submit_timesheet.eq_def]
    split
    · rfl
    · rename_i hcond
      exfalso
      have htr : (truthyId contractor_id && truthyMonth month
          && truthyHours hours_by_day) = true := not_not.mp hcond
      rw [hfalse] at htr
      cases htr

/-- Witness for C10: an approved contractor with pay rate 10 submitting
8 hours yields a stored row with `total_pay = 80`; an unapproved
contractor is rejected with 400; a submission with an empty month is
rejected as missing fields. -/
theorem submit_timesheet_spec_witness :
    submit_timesheet ⟨[⟨1, some 10, true⟩], []⟩ (some 1) (some "June")
        (some [("1", 8)]) []
      = ((201, "Timesheet submitted successfully"),
        ⟨[⟨1, some 10, true⟩], [⟨1, "June", [("1", 8)], 80, []⟩]⟩)
    ∧ submit_timesheet ⟨[⟨2, some 10, false⟩], []⟩ (some 2) (some "June")
        (some [("1", 8)]) []
      = ((400, "Invalid contractor ID or not approved"),
        ⟨[⟨2, some 10, false⟩], []⟩)
    ∧ submit_timesheet ⟨[⟨1, some 10, true⟩], []⟩ (some 1) (some "")
        (some [("1", 8)]) []
      = ((400, "Missing required fields"), ⟨[⟨1, some 10, true⟩], []⟩) := by
  refine ⟨?_, ?_, ?_⟩
  · have h := submit_timesheet_spec.1 ⟨[⟨1, some 10, true⟩], []⟩ 1 "June"
      [("1", 8)] [] ⟨1, some 10, true⟩ 10 (by decide) (by decide)
      (by decide) rfl rfl rfl (by decide)
    rw [h]
    norm_num
  · exact submit_timesheet_spec.2.2.2.1 ⟨[⟨2, some 10, false⟩], []⟩ 2 "June"
      [("1", 8)] [] ⟨2, some 10, false⟩ (by decide) (by decide) (by decide)
      rfl rfl
  · exact submit_timesheet_spec.2.2.2.2 ⟨[⟨1, some 10, true⟩], []⟩ (some 1)
      (some "") (some [("1", 8)]) [] (by decide)

end PRtester
